import Mathlib

/-!
Shallow embedding of `optical_lattice/lattice_generation.py`
(`GeneratedLatticeImage.__init__`).

The constructor is a single straight-line computation whose only sources of
variability are the random draws (site choice, Gaussian photon jitter, the
Poisson dark-count total, and the uniform dark-count positions).  We embed it
as a deterministic function of the parameters together with those draws, which
are passed in explicitly; `ValidDraws` records exactly the support constraints
that the numpy samplers guarantee for their outputs:

* `np.random.choice(np.arange(N*N), N_atom, replace=False)` returns `N_atom`
  distinct values below `N*N` (and no such value exists when `N_atom > N*N`);
* `np.random.multivariate_normal([cx, cy], [[std,0],[0,std]], N_photon)`
  returns, in distribution, the center plus a jitter; the jitter draws are the
  embedded inputs (their values are unconstrained, matching the full support
  of a Gaussian);
* `np.random.poisson(lam_backg*N_backg)` returns one natural number;
* `np.random.choice(np.arange(CCD_resolution), k, replace=True)` returns `k`
  values below `CCD_resolution`.

Real-valued quantities are embedded as rationals (exact arithmetic).  The
grids are embedded as total functions on indices (zero outside the touched
cells), so that out-of-range numpy indexing questions can be stated directly.
-/

namespace OpticalLattice

/-- The parameters of `GeneratedLatticeImage.__init__`.  `std` and
`lam_backg` only parametrize the distributions of the random draws and do not
otherwise enter the deterministic data flow. -/
structure Params where
  N : ℕ
  M : ℕ
  N_atom : ℕ
  N_photon : ℕ
  CCD_resolution : ℕ
  lattice_origin : ℤ × ℤ
  std : ℚ
  N_backg : ℕ
  lam_backg : ℚ

/-- The random draws consumed by one call of the constructor:
`atom_location` is the output of the without-replacement site choice,
`jitter i j` is the centered Gaussian offset of photon `j` of atom `i`,
`dark_count_tot` is the single Poisson draw, and `dark_x k` / `dark_y k` are
the uniform dark-count pixel positions. -/
structure Draws where
  atom_location : List ℕ
  jitter : ℕ → ℕ → ℚ × ℚ
  dark_count_tot : ℕ
  dark_x : ℕ → ℕ
  dark_y : ℕ → ℕ

/-- The support constraints guaranteed by the numpy samplers that produced
the draws. -/
def ValidDraws (p : Params) (d : Draws) : Prop :=
  d.atom_location.length = p.N_atom ∧
  d.atom_location.Nodup ∧
  (∀ idx ∈ d.atom_location, idx < p.N * p.N) ∧
  (∀ k < d.dark_count_tot,
    d.dark_x k < p.CCD_resolution ∧ d.dark_y k < p.CCD_resolution)

instance (p : Params) (d : Draws) : Decidable (ValidDraws p d) := by
  unfold ValidDraws; infer_instance

/-- `np.rint`: round to the nearest integer, halves to the even integer. -/
def rint (q : ℚ) : ℤ :=
  if q - ⌊q⌋ < 1/2 then ⌊q⌋
  else if 1/2 < q - ⌊q⌋ then ⌊q⌋ + 1
  else if Even ⌊q⌋ then ⌊q⌋ else ⌊q⌋ + 1

/-- `x_index[i]`: the code unravels a site index row-major over `(N, N)`
(component 0 is `idx / N`, component 1 is `idx % N`), multiplies by `M` and
adds `M/2`; component 0 is used as the x center. -/
def x_index (p : Params) (idx : ℕ) : ℚ :=
  (idx / p.N : ℕ) * (p.M : ℚ) + (p.M : ℚ) / 2

/-- `y_index[i] = N*M - (atom_location_index[1]*M + M/2)`: component 1 of the
unravelling (`idx % N`) is used, inverted, as the y center. -/
def y_index (p : Params) (idx : ℕ) : ℚ :=
  (p.N : ℚ) * (p.M : ℚ) - ((idx % p.N : ℕ) * (p.M : ℚ) + (p.M : ℚ) / 2)

/-- `actual_lattice[y, x] = 1` for one atom (`y = idx % N`, `x = idx / N`). -/
def markSite (g : ℕ → ℕ → ℕ) (yv xv : ℕ) : ℕ → ℕ → ℕ :=
  fun r c => if r = yv ∧ c = xv then 1 else g r c

/-- The ground-truth occupancy grid: start from zeros and mark
`actual_lattice[idx % N, idx / N] = 1` for every drawn site index; the
commented-out inverted-y variant of the source is not active. -/
def actual_lattice (p : Params) (d : Draws) : ℕ → ℕ → ℕ :=
  d.atom_location.foldl
    (fun g idx => markSite g (idx % p.N) (idx / p.N)) (fun _ _ => 0)

/-- The signal x coordinates: for `i in range(N_atom)`, `N_photon` samples
centered at `x_index[i]`, rounded with `np.rint` and then shifted by
`lattice_origin[0]`. -/
def signal_x (p : Params) (d : Draws) : List ℤ :=
  (List.range p.N_atom).flatMap (fun i =>
    (List.range p.N_photon).map (fun j =>
      rint (x_index p (d.atom_location.getD i 0) + (d.jitter i j).1)
        + p.lattice_origin.1))

/-- The signal y coordinates, rounded and shifted by `lattice_origin[1]`. -/
def signal_y (p : Params) (d : Draws) : List ℤ :=
  (List.range p.N_atom).flatMap (fun i =>
    (List.range p.N_photon).map (fun j =>
      rint (y_index p (d.atom_location.getD i 0) + (d.jitter i j).2)
        + p.lattice_origin.2))

/-- `dark_count_location_x`: `dark_count_tot` uniform draws from
`np.arange(CCD_resolution)`. -/
def background_x (d : Draws) : List ℤ :=
  (List.range d.dark_count_tot).map (fun k => (d.dark_x k : ℤ))

/-- `dark_count_location_y`. -/
def background_y (d : Draws) : List ℤ :=
  (List.range d.dark_count_tot).map (fun k => (d.dark_y k : ℤ))

/-- `x_loc = np.concatenate((x_loc, dark_count_location_x))`. -/
def x_loc (p : Params) (d : Draws) : List ℤ :=
  signal_x p d ++ background_x d

/-- `y_loc = np.concatenate((y_loc, dark_count_location_y))`. -/
def y_loc (p : Params) (d : Draws) : List ℤ :=
  signal_y p d ++ background_y d

/-- One event of the rasterization loop:
`if (x < CCD_resolution and y < CCD_resolution and x > 0 and y > 0):
pixel_grid[y, x] += 1`, else no change. -/
def rstep (CCD : ℕ) (g : ℤ → ℤ → ℕ) (e : ℤ × ℤ) : ℤ → ℤ → ℕ :=
  fun r c =>
    if e.1 < (CCD : ℤ) ∧ e.2 < (CCD : ℤ) ∧ 0 < e.1 ∧ 0 < e.2 then
      (if r = e.2 ∧ c = e.1 then g r c + 1 else g r c)
    else g r c

/-- `for x, y in zip(x_loc, y_loc): ...` starting from the zero grid. -/
def rasterize (CCD : ℕ) (events : List (ℤ × ℤ)) : ℤ → ℤ → ℕ :=
  events.foldl (rstep CCD) (fun _ _ => 0)

/-- The pixel grid right before the camera rescale. -/
def pre_grid (p : Params) (d : Draws) : ℤ → ℤ → ℕ :=
  rasterize p.CCD_resolution ((x_loc p d).zip (y_loc p d))

/-- `pixel_grid.max()`: the maximum over the `CCD × CCD` index range. -/
def grid_max (CCD : ℕ) (g : ℤ → ℤ → ℕ) : ℕ :=
  ((Finset.range CCD) ×ˢ (Finset.range CCD)).sup
    (fun rc => g (rc.1 : ℤ) (rc.2 : ℤ))

/-- The attributes stored by the constructor. -/
structure Output where
  x_loc : List ℤ
  y_loc : List ℤ
  actual_lattice : ℕ → ℕ → ℕ
  pixel_grid : ℤ → ℤ → ℚ

/-- The whole constructor.  `pixel_grid.max()` on a zero-size array
(`CCD_resolution = 0`) raises in numpy, modelled as `none`.  Otherwise the
code raises nothing: `pixel_grid *= 5000/pixel_grid.max()` divides by zero
when the maximum is `0` (numpy emits a warning and produces non-finite
values instead of failing); in this exact rational model division by zero
yields `0`, so the degenerate grid comes out as the constant baseline. -/
def synthesize (p : Params) (d : Draws) : Option Output :=
  if p.CCD_resolution = 0 then none
  else some
    { x_loc := x_loc p d
      y_loc := y_loc p d
      actual_lattice := actual_lattice p d
      pixel_grid := fun r c =>
        (pre_grid p d r c : ℚ)
          * (5000 / (grid_max p.CCD_resolution (pre_grid p d) : ℚ)) + 600 }

/-! ### Helper lemmas -/

lemma ite_one_zero_eq_one (P : Prop) [Decidable P] :
    (if P then (1 : ℕ) else 0) = 1 ↔ P := by
  split <;> simp_all

/-- `rint` rounds to a nearest integer: the rounding error is at most `1/2`. -/
lemma rint_nearest (q : ℚ) : |(rint q : ℚ) - q| ≤ 1/2 := by
  have h1 : (⌊q⌋ : ℚ) ≤ q := Int.floor_le q
  have h2 : q < ⌊q⌋ + 1 := Int.lt_floor_add_one q
  rw [rint]
  split
  · rw [abs_le]; constructor <;> linarith
  · split
    · rw [abs_le]; push_cast; constructor <;> linarith
    · split <;> (rw [abs_le]; push_cast; constructor <;> linarith)

/-- Characterization of the rasterization fold from an arbitrary start grid:
in-bounds events contribute one count each at their own `(y, x)` cell. -/
lemma rasterize_go (CCD : ℕ) :
    ∀ (events : List (ℤ × ℤ)) (g : ℤ → ℤ → ℕ) (r c : ℤ),
      events.foldl (rstep CCD) g r c =
        g r c + (if 0 < c ∧ c < (CCD : ℤ) ∧ 0 < r ∧ r < (CCD : ℤ) then
          events.count (c, r) else 0)
  | [], g, r, c => by simp
  | e :: es, g, r, c => by
    obtain ⟨ex, ey⟩ := e
    rw [List.foldl_cons, rasterize_go CCD es (rstep CCD g (ex, ey)) r c]
    have hcount : ((ex, ey) :: es).count (c, r) =
        es.count (c, r) + if ex = c ∧ ey = r then 1 else 0 := by
      rw [List.count_cons]; simp only [beq_iff_eq, Prod.mk.injEq]
    have hstep : rstep CCD g (ex, ey) r c =
        if ex < (CCD : ℤ) ∧ ey < (CCD : ℤ) ∧ 0 < ex ∧ 0 < ey then
          (if r = ey ∧ c = ex then g r c + 1 else g r c)
        else g r c := rfl
    rw [hcount, hstep]
    by_cases hhit : ex = c ∧ ey = r
    · obtain ⟨h1, h2⟩ := hhit
      subst h1; subst h2
      rw [if_pos (⟨rfl, rfl⟩ : ey = ey ∧ ex = ex),
        if_pos (⟨rfl, rfl⟩ : ex = ex ∧ ey = ey)]
      by_cases hin : (0 : ℤ) < ex ∧ ex < (CCD : ℤ) ∧ 0 < ey ∧ ey < (CCD : ℤ)
      · have hB : ex < (CCD : ℤ) ∧ ey < (CCD : ℤ) ∧ 0 < ex ∧ 0 < ey :=
          ⟨hin.2.1, hin.2.2.2, hin.1, hin.2.2.1⟩
        rw [if_pos hB, if_pos hin, if_pos hin]
        omega
      · have hB : ¬ (ex < (CCD : ℤ) ∧ ey < (CCD : ℤ) ∧ 0 < ex ∧ 0 < ey) :=
          fun hcon => hin ⟨hcon.2.2.1, hcon.1, hcon.2.2.2, hcon.2.1⟩
        rw [if_neg hB, if_neg hin, if_neg hin]
    · have hH : ¬ (r = ey ∧ c = ex) :=
        fun hcon => hhit ⟨hcon.2.symm, hcon.1.symm⟩
      rw [if_neg hhit, add_zero]
      by_cases hB : ex < (CCD : ℤ) ∧ ey < (CCD : ℤ) ∧ 0 < ex ∧ 0 < ey
      · rw [if_pos hB, if_neg hH]
      · rw [if_neg hB]

/-- The pre-rescale grid counts, at each strictly in-bounds cell `(r, c)`, the
events equal to `(c, r)`; all other cells are `0`. -/
lemma rasterize_eq (CCD : ℕ) (events : List (ℤ × ℤ)) (r c : ℤ) :
    rasterize CCD events r c =
      if 0 < c ∧ c < (CCD : ℤ) ∧ 0 < r ∧ r < (CCD : ℤ) then
        events.count (c, r) else 0 := by
  rw [rasterize, rasterize_go]
  simp

/-- Characterization of the ground-truth-marking fold. -/
lemma mark_go (Nn : ℕ) :
    ∀ (l : List ℕ) (g : ℕ → ℕ → ℕ) (r c : ℕ),
      (l.foldl (fun g idx => markSite g (idx % Nn) (idx / Nn)) g) r c =
        if ∃ idx ∈ l, idx % Nn = r ∧ idx / Nn = c then 1 else g r c
  | [], g, r, c => by simp
  | a :: l, g, r, c => by
    rw [List.foldl_cons, mark_go Nn l _ r c]
    by_cases htail : ∃ idx ∈ l, idx % Nn = r ∧ idx / Nn = c
    · have hall : ∃ idx ∈ a :: l, idx % Nn = r ∧ idx / Nn = c := by
        obtain ⟨idx, hidx, hp⟩ := htail
        exact ⟨idx, List.mem_cons_of_mem a hidx, hp⟩
      rw [if_pos htail, if_pos hall]
    · rw [if_neg htail, markSite]
      by_cases hhead : r = a % Nn ∧ c = a / Nn
      · have hall : ∃ idx ∈ a :: l, idx % Nn = r ∧ idx / Nn = c :=
          ⟨a, List.mem_cons_self a l, hhead.1.symm, hhead.2.symm⟩
        rw [if_pos hhead, if_pos hall]
      · have hall : ¬ ∃ idx ∈ a :: l, idx % Nn = r ∧ idx / Nn = c := by
          rintro ⟨idx, hidx, hp1, hp2⟩
          rcases List.mem_cons.mp hidx with h | h
          · exact hhead ⟨(h ▸ hp1).symm, (h ▸ hp2).symm⟩
          · exact htail ⟨idx, h, hp1, hp2⟩
        rw [if_neg hhead, if_neg hall]

/-- The ground-truth grid is the indicator of the drawn sites, each placed at
row `idx % N`, column `idx / N`. -/
lemma actual_lattice_eq (p : Params) (d : Draws) (r c : ℕ) :
    actual_lattice p d r c =
      if ∃ idx ∈ d.atom_location, idx % p.N = r ∧ idx / p.N = c then 1
      else 0 := by
  rw [actual_lattice, mark_go]

/-- Indexing a `flatMap` of constant-length blocks. -/
lemma getElem_flatMap_blocks {α : Type} (m : ℕ) (f : ℕ → ℕ → α) :
    ∀ (n i j : ℕ), i < n → j < m →
      ((List.range n).flatMap (fun i => (List.range m).map (f i)))[i * m + j]?
        = some (f i j)
  | 0, i, j, hi, _ => absurd hi (Nat.not_lt_zero i)
  | n + 1, i, j, hi, hj => by
    rw [List.range_succ, List.flatMap_append]
    by_cases hin : i < n
    · rw [List.getElem?_append_left, getElem_flatMap_blocks m f n i j hin hj]
      calc i * m + j < i * m + m := by omega
        _ ≤ n * m := by
            have : i + 1 ≤ n := hin
            calc i * m + m = (i + 1) * m := by ring
              _ ≤ n * m := Nat.mul_le_mul_right m this
        _ = ((List.range n).flatMap
              (fun i => (List.range m).map (f i))).length := by
            simp [List.length_flatMap, Function.comp_def, List.map_const]
    · have hieq : i = n := by omega
      subst hieq
      have hlen : ((List.range i).flatMap
          (fun i => (List.range m).map (f i))).length = i * m := by
        simp [List.length_flatMap, Function.comp_def, List.map_const]
      rw [List.getElem?_append_right (by omega), hlen]
      simp only [List.flatMap_cons, List.flatMap_nil, List.append_nil]
      have : i * m + j - i * m = j := by omega
      rw [this, List.getElem?_map, List.getElem?_range hj]
      rfl

/-! ### Concrete instances used by witnesses and counterexamples -/

/-- `N = 1`, `M = 2`, `N_atom = 1`, `N_photon = 1`, `CCD_resolution = 4`,
origin `(0, 0)`. -/
def pA : Params := ⟨1, 2, 1, 1, 4, (0, 0), 1, 1, 1⟩

/-- Atom at site 0, zero jitter, one dark count at `(2, 2)`. -/
def dA : Draws := ⟨[0], fun _ _ => (0, 0), 1, fun _ => 2, fun _ => 2⟩

/-- `N_atom = 0` with `N_backg` arbitrary. -/
def pB : Params := ⟨1, 1, 0, 1, 4, (0, 0), 1, 0, 1⟩

/-- No atoms and zero dark counts. -/
def dB : Draws := ⟨[], fun _ _ => (0, 0), 0, fun _ => 0, fun _ => 0⟩

/-- `N_photon = 0`: a non-positive parameter. -/
def pC : Params := ⟨1, 1, 1, 0, 4, (0, 0), 1, 1, 1⟩

/-- One atom, no dark counts. -/
def dC : Draws := ⟨[0], fun _ _ => (0, 0), 0, fun _ => 0, fun _ => 0⟩

/-- `N_atom = 2 > 1 = N*N`. -/
def pD : Params := ⟨1, 1, 2, 1, 4, (0, 0), 1, 1, 1⟩

lemma rint_one : rint 1 = 1 := by rw [rint]; norm_num

lemma x_loc_pA : x_loc pA dA = [1, 2] := by
  simp only [x_loc, signal_x, background_x, pA, dA, x_index]
  norm_num [List.range_succ, rint_one]

lemma y_loc_pA : y_loc pA dA = [1, 2] := by
  simp only [y_loc, signal_y, background_y, pA, dA, y_index]
  norm_num [List.range_succ, rint_one]

lemma pre_grid_pA : pre_grid pA dA = rasterize 4 [(1, 1), (2, 2)] := by
  unfold pre_grid
  rw [x_loc_pA, y_loc_pA]
  rfl

lemma grid_max_pA : grid_max pA.CCD_resolution (pre_grid pA dA) = 1 := by
  rw [pre_grid_pA]
  decide

/-! ### Claims -/

/-- Claim C1, counterexample.  With `N_atom = 0` and `dark_count_tot = 0` the
pre-rescale grid maximum is `0`, yet the constructor contains no
`DegenerateImage` guard: `pixel_grid *= 5000/pixel_grid.max()` divides by
zero without failing, and a grid is still returned. -/
theorem C1_counterexample :
    grid_max pB.CCD_resolution (pre_grid pB dB) = 0 ∧
    (synthesize pB dB).isSome = true := by
  constructor <;> decide

/-- Claim C1 as amended: when `N_atom = 0` and `dark_count_tot = 0` the
pre-rescale maximum is `0` and no error is raised; the rescale's scale factor
divides by zero and a grid is still returned, every cell of which equals the
`600` baseline in this exact arithmetic model (numpy instead propagates
non-finite values). -/
theorem C1_amended_degenerate_grid_returned (p : Params) (d : Draws)
    (hatom : p.N_atom = 0) (hdark : d.dark_count_tot = 0)
    (hccd : p.CCD_resolution ≠ 0) :
    grid_max p.CCD_resolution (pre_grid p d) = 0 ∧
    ∃ out, synthesize p d = some out ∧
      ∀ r c : ℤ, out.pixel_grid r c = 600 := by
  have hx : x_loc p d = [] := by
    simp [x_loc, signal_x, background_x, hatom, hdark]
  have hzero : ∀ r c : ℤ, pre_grid p d r c = 0 := by
    intro r c
    rw [pre_grid, hx]
    simp [rasterize_eq]
  have hmax : grid_max p.CCD_resolution (pre_grid p d) = 0 :=
    le_antisymm (Finset.sup_le fun rc _ => le_of_eq (hzero _ _)) (zero_le _)
  refine ⟨hmax, ?_⟩
  rw [synthesize, if_neg hccd]
  exact ⟨_, rfl, fun r c => by simp [hzero r c]⟩

/-- Witness for the amended claim C1 at `pB`, `dB`. -/
theorem C1_amended_witness :
    pB.N_atom = 0 ∧ dB.dark_count_tot = 0 ∧ pB.CCD_resolution ≠ 0 ∧
    (grid_max pB.CCD_resolution (pre_grid pB dB) = 0 ∧
      ∃ out, synthesize pB dB = some out ∧
        ∀ r c : ℤ, out.pixel_grid r c = 600) :=
  ⟨rfl, rfl, by decide,
    C1_amended_degenerate_grid_returned pB dB rfl rfl (by decide)⟩

/-- Claim C2, counterexample.  `pC` has the non-positive parameter
`N_photon = 0`, its draws are realizable, and synthesis succeeds anyway:
the constructor performs no `InvalidParameter` validation. -/
theorem C2_counterexample :
    pC.N_photon = 0 ∧ ValidDraws pC dC ∧ (synthesize pC dC).isSome = true :=
  ⟨rfl, by decide, by decide⟩

/-- Claim C2 as amended: the constructor performs no explicit
`InvalidParameter` validation and does not fail fast on every non-positive
parameter: in particular `N_photon = 0` is accepted and synthesis succeeds
(see the counterexample).  The `N_atom > N*N` part of the claim does hold,
in the sense that the without-replacement site draw is then impossible — no
draw consisting of `N_atom` distinct sites below `N*N` exists — so the
sampling step itself fails before any sample is produced. -/
theorem C2_amended_no_sampling_possible (p : Params)
    (h : p.N * p.N < p.N_atom) (d : Draws) : ¬ ValidDraws p d := by
  rintro ⟨hlen, hnodup, hmem, -⟩
  have hsub : d.atom_location.toFinset ⊆ Finset.range (p.N * p.N) := by
    intro x hx
    exact Finset.mem_range.mpr (hmem x (List.mem_toFinset.mp hx))
  have hcard := Finset.card_le_card hsub
  rw [List.toFinset_card_of_nodup hnodup, hlen, Finset.card_range] at hcard
  omega

/-- Witness for the amended claim C2 at `pD` (where `N_atom = 2 > 1 = N*N`). -/
theorem C2_amended_witness :
    pD.N * pD.N < pD.N_atom ∧ ¬ ValidDraws pD dC :=
  ⟨by decide, C2_amended_no_sampling_possible pD (by decide) dC⟩

/-- Claim C3: a detection event `(x, y)` is rasterized (incrementing
`grid[y][x]` by 1) iff `0 < x < CCD_resolution` and `0 < y < CCD_resolution`,
strict on both bounds: each strictly in-bounds cell `(r, c)` of the
pre-rescale grid holds exactly the number of events equal to `(c, r)`, and
every other cell is `0`; the raw coordinate sequences `x_loc`/`y_loc` are
consumed unchanged (out-of-bounds events stay in them, see C6). -/
theorem C3_rasterization_strict_bounds (p : Params) (d : Draws) (r c : ℤ) :
    pre_grid p d r c =
      if 0 < c ∧ c < (p.CCD_resolution : ℤ) ∧
          0 < r ∧ r < (p.CCD_resolution : ℤ) then
        ((x_loc p d).zip (y_loc p d)).count (c, r)
      else 0 :=
  rasterize_eq _ _ r c

/-- Claim C6: the x and y coordinate sequences have equal length
`N_atom * N_photon + dark_count_tot`, with all signal coordinates first and
the background coordinates appended, pairing by index preserved between the
two sequences. -/
theorem C6_coordinate_lengths (p : Params) (d : Draws) :
    (x_loc p d).length = p.N_atom * p.N_photon + d.dark_count_tot ∧
    (y_loc p d).length = p.N_atom * p.N_photon + d.dark_count_tot ∧
    x_loc p d = signal_x p d ++ background_x d ∧
    y_loc p d = signal_y p d ++ background_y d := by
  refine ⟨?_, ?_, rfl, rfl⟩ <;>
    simp [x_loc, y_loc, signal_x, signal_y, background_x, background_y,
      List.length_flatMap, Function.comp_def, List.map_const]

/-- Claim C8: the background is one total count `dark_count_tot` (a single
Poisson draw with mean `lam_backg * N_backg` in the source — the `Draws`
model has exactly one such count, matching the single-draw form rather than
a sum of `N_backg` draws), followed by exactly `dark_count_tot`
x-coordinates and `dark_count_tot` y-coordinates, each drawn from
`np.arange(CCD_resolution)`, i.e. landing in `[0, CCD_resolution)`; they are
appended after the signal coordinates. -/
theorem C8_background_structure (p : Params) (d : Draws)
    (h : ValidDraws p d) :
    (background_x d).length = d.dark_count_tot ∧
    (background_y d).length = d.dark_count_tot ∧
    (∀ v ∈ background_x d, 0 ≤ v ∧ v < (p.CCD_resolution : ℤ)) ∧
    (∀ v ∈ background_y d, 0 ≤ v ∧ v < (p.CCD_resolution : ℤ)) ∧
    x_loc p d = signal_x p d ++ background_x d ∧
    y_loc p d = signal_y p d ++ background_y d := by
  obtain ⟨-, -, -, hdark⟩ := h
  refine ⟨by simp [background_x], by simp [background_y], ?_, ?_, rfl, rfl⟩
  · intro v hv
    simp only [background_x, List.mem_map, List.mem_range] at hv
    obtain ⟨k, hk, rfl⟩ := hv
    exact ⟨Int.natCast_nonneg _, by exact_mod_cast (hdark k hk).1⟩
  · intro v hv
    simp only [background_y, List.mem_map, List.mem_range] at hv
    obtain ⟨k, hk, rfl⟩ := hv
    exact ⟨Int.natCast_nonneg _, by exact_mod_cast (hdark k hk).2⟩

/-- Witness for claim C8 at `pA`, `dA`. -/
theorem C8_witness :
    ValidDraws pA dA ∧
    ((background_x dA).length = dA.dark_count_tot ∧
      (background_y dA).length = dA.dark_count_tot ∧
      (∀ v ∈ background_x dA, 0 ≤ v ∧ v < (pA.CCD_resolution : ℤ)) ∧
      (∀ v ∈ background_y dA, 0 ≤ v ∧ v < (pA.CCD_resolution : ℤ)) ∧
      x_loc pA dA = signal_x pA dA ++ background_x dA ∧
      y_loc pA dA = signal_y pA dA ++ background_y dA) :=
  ⟨by decide, C8_background_structure pA dA (by decide)⟩

/-- Claim C9: a drawn site index `idx`, which unravels to components
`a = idx / N` and `b = idx % N`, is marked in the ground-truth grid at
`actual_lattice[b][a]` with no row inversion, while the same site's pixel
y center is computed with the inversion `N*M - (b*M + M/2)`; hence pixel
row order reverses grid row order (larger `b` gives a strictly smaller
y center when `M > 0`). -/
theorem C9_ground_truth_orientation (p : Params) (d : Draws) (idx : ℕ)
    (h : idx ∈ d.atom_location) :
    actual_lattice p d (idx % p.N) (idx / p.N) = 1 ∧
    x_index p idx = (idx / p.N : ℕ) * (p.M : ℚ) + (p.M : ℚ) / 2 ∧
    y_index p idx =
      (p.N : ℚ) * (p.M : ℚ) -
        ((idx % p.N : ℕ) * (p.M : ℚ) + (p.M : ℚ) / 2) ∧
    (∀ idx1 idx2 : ℕ, idx1 % p.N < idx2 % p.N → 0 < p.M →
      y_index p idx2 < y_index p idx1) := by
  refine ⟨?_, rfl, rfl, ?_⟩
  · rw [actual_lattice_eq, if_pos ⟨idx, h, rfl, rfl⟩]
  · intro idx1 idx2 hb hM
    unfold y_index
    have hb' : ((idx1 % p.N : ℕ) : ℚ) < ((idx2 % p.N : ℕ) : ℚ) := by
      exact_mod_cast hb
    have hM' : (0 : ℚ) < (p.M : ℚ) := by exact_mod_cast hM
    nlinarith

/-- Witness for claim C9 at `pA`, `dA`, site index 0. -/
theorem C9_witness :
    (0 ∈ dA.atom_location) ∧
    (actual_lattice pA dA (0 % pA.N) (0 / pA.N) = 1 ∧
      x_index pA 0 = (0 / pA.N : ℕ) * (pA.M : ℚ) + (pA.M : ℚ) / 2 ∧
      y_index pA 0 =
        (pA.N : ℚ) * (pA.M : ℚ) -
          ((0 % pA.N : ℕ) * (pA.M : ℚ) + (pA.M : ℚ) / 2) ∧
      (∀ idx1 idx2 : ℕ, idx1 % pA.N < idx2 % pA.N → 0 < pA.M →
        y_index pA idx2 < y_index pA idx1)) :=
  ⟨by decide, C9_ground_truth_orientation pA dA 0 (by decide)⟩

/-- Claim C10: every rasterization increment targets indices strictly
between 0 and `CCD_resolution`: any cell outside that open range is never
written (it stays `0`), and no event can alias into a different cell (each
cell's count is bounded by the number of events exactly equal to it), even
though rounded signal coordinates may be negative or exceed the resolution. -/
theorem C10_no_out_of_bounds_write (p : Params) (d : Draws) (r c : ℤ)
    (h : c ≤ 0 ∨ (p.CCD_resolution : ℤ) ≤ c ∨ r ≤ 0 ∨
      (p.CCD_resolution : ℤ) ≤ r) :
    pre_grid p d r c = 0 ∧
    ∀ r' c' : ℤ, pre_grid p d r' c' ≤
      ((x_loc p d).zip (y_loc p d)).count (c', r') := by
  constructor
  · rw [pre_grid, rasterize_eq, if_neg]
    rintro ⟨h1, h2, h3, h4⟩
    rcases h with h | h | h | h <;> omega
  · intro r' c'
    rw [pre_grid, rasterize_eq]
    split
    · exact le_rfl
    · exact Nat.zero_le _

/-- Witness for claim C10 at `pA`, `dA`, cell `(2, -1)`. -/
theorem C10_witness :
    ((-1 : ℤ) ≤ 0 ∨ (pA.CCD_resolution : ℤ) ≤ -1 ∨ (2 : ℤ) ≤ 0 ∨
      (pA.CCD_resolution : ℤ) ≤ 2) ∧
    (pre_grid pA dA 2 (-1) = 0 ∧
      ∀ r' c' : ℤ, pre_grid pA dA r' c' ≤
        ((x_loc pA dA).zip (y_loc pA dA)).count (c', r')) :=
  ⟨by decide, C10_no_out_of_bounds_write pA dA 2 (-1) (by decide)⟩

/-- Claim C5: for valid draws the ground-truth `N × N` grid has exactly
`N_atom` cells equal to 1 and `N*N - N_atom` cells equal to 0 (atom sites
drawn without replacement, no two atoms share a site); in the full-lattice
case `N_atom = N*N` every cell is 1, and synthesis still succeeds. -/
theorem C5_ground_truth_counts (p : Params) (d : Draws)
    (h : ValidDraws p d) :
    ((Finset.range p.N ×ˢ Finset.range p.N).filter
        (fun rc => actual_lattice p d rc.1 rc.2 = 1)).card = p.N_atom ∧
    ((Finset.range p.N ×ˢ Finset.range p.N).filter
        (fun rc => actual_lattice p d rc.1 rc.2 = 0)).card
      = p.N * p.N - p.N_atom ∧
    (p.N_atom = p.N * p.N →
      ∀ r < p.N, ∀ c < p.N, actual_lattice p d r c = 1) ∧
    (p.CCD_resolution ≠ 0 → (synthesize p d).isSome = true) := by
  obtain ⟨hlen, hnodup, hmem, -⟩ := h
  have himage : (Finset.range p.N ×ˢ Finset.range p.N).filter
      (fun rc => actual_lattice p d rc.1 rc.2 = 1)
      = d.atom_location.toFinset.image (fun idx => (idx % p.N, idx / p.N)) := by
    ext rc
    simp only [Finset.mem_filter, Finset.mem_product, Finset.mem_range,
      Finset.mem_image, List.mem_toFinset, actual_lattice_eq,
      ite_one_zero_eq_one]
    constructor
    · rintro ⟨⟨-, -⟩, idx, hidx, h1, h2⟩
      exact ⟨idx, hidx, Prod.ext h1 h2⟩
    · rintro ⟨idx, hidx, rfl⟩
      have hlt := hmem idx hidx
      have hN : 0 < p.N := by
        rcases Nat.eq_zero_or_pos p.N with h0 | h0
        · rw [h0] at hlt; omega
        · exact h0
      exact ⟨⟨Nat.mod_lt idx hN, (Nat.div_lt_iff_lt_mul hN).mpr hlt⟩,
        idx, hidx, rfl, rfl⟩
  have hinj : Set.InjOn (fun idx => (idx % p.N, idx / p.N))
      d.atom_location.toFinset := by
    intro a _ b _ hab
    simp only [Prod.mk.injEq] at hab
    have ha' : p.N * (a / p.N) + a % p.N = a := Nat.div_add_mod a p.N
    have hb' : p.N * (b / p.N) + b % p.N = b := Nat.div_add_mod b p.N
    rw [← ha', ← hb', hab.1, hab.2]
  have hcard1 : ((Finset.range p.N ×ˢ Finset.range p.N).filter
      (fun rc => actual_lattice p d rc.1 rc.2 = 1)).card = p.N_atom := by
    rw [himage, Finset.card_image_of_injOn hinj,
      List.toFinset_card_of_nodup hnodup, hlen]
  have h01 : ∀ r c : ℕ,
      actual_lattice p d r c = 0 ∨ actual_lattice p d r c = 1 := by
    intro r c
    rw [actual_lattice_eq]
    split
    · exact Or.inr rfl
    · exact Or.inl rfl
  have hfilter0 : (Finset.range p.N ×ˢ Finset.range p.N).filter
      (fun rc => actual_lattice p d rc.1 rc.2 = 0)
      = (Finset.range p.N ×ˢ Finset.range p.N) \
        ((Finset.range p.N ×ˢ Finset.range p.N).filter
          (fun rc => actual_lattice p d rc.1 rc.2 = 1)) := by
    rw [← Finset.filter_not]
    apply Finset.filter_congr
    intro rc _
    rcases h01 rc.1 rc.2 with h0 | h1
    · simp [h0]
    · simp [h1]
  have hcard2 : ((Finset.range p.N ×ˢ Finset.range p.N).filter
      (fun rc => actual_lattice p d rc.1 rc.2 = 0)).card
      = p.N * p.N - p.N_atom := by
    rw [hfilter0, Finset.card_sdiff (Finset.filter_subset _ _), hcard1,
      Finset.card_product, Finset.card_range]
  refine ⟨hcard1, hcard2, ?_, ?_⟩
  · intro hfull r hr c hc
    have hz : ((Finset.range p.N ×ˢ Finset.range p.N).filter
        (fun rc => actual_lattice p d rc.1 rc.2 = 0)).card = 0 := by
      rw [hcard2, hfull]; omega
    rw [Finset.card_eq_zero] at hz
    rcases h01 r c with h0 | h1
    · exfalso
      have : (r, c) ∈ (Finset.range p.N ×ˢ Finset.range p.N).filter
          (fun rc => actual_lattice p d rc.1 rc.2 = 0) := by
        rw [Finset.mem_filter, Finset.mem_product]
        exact ⟨⟨Finset.mem_range.mpr hr, Finset.mem_range.mpr hc⟩, h0⟩
      rw [hz] at this
      exact Finset.not_mem_empty _ this
    · exact h1
  · intro hccd
    rw [synthesize, if_neg hccd]
    rfl

/-- Witness for claim C5 at `pA`, `dA`. -/
theorem C5_witness :
    ValidDraws pA dA ∧
    (((Finset.range pA.N ×ˢ Finset.range pA.N).filter
        (fun rc => actual_lattice pA dA rc.1 rc.2 = 1)).card = pA.N_atom ∧
      ((Finset.range pA.N ×ˢ Finset.range pA.N).filter
        (fun rc => actual_lattice pA dA rc.1 rc.2 = 0)).card
        = pA.N * pA.N - pA.N_atom ∧
      (pA.N_atom = pA.N * pA.N →
        ∀ r < pA.N, ∀ c < pA.N, actual_lattice pA dA r c = 1) ∧
      (pA.CCD_resolution ≠ 0 → (synthesize pA dA).isSome = true)) :=
  ⟨by decide, C5_ground_truth_counts pA dA (by decide)⟩

/-- The rounded coordinate shifted by an integer origin stays within `1/2`
of the origin-shifted sample. -/
lemma rint_shift_nearest (s : ℚ) (o : ℤ) :
    |((rint s + o : ℤ) : ℚ) - (s + (o : ℚ))| ≤ 1/2 := by
  have h := rint_nearest s
  have he : ((rint s + o : ℤ) : ℚ) - (s + (o : ℚ)) = (rint s : ℚ) - s := by
    push_cast; ring
  rw [he]; exact h

/-- Claim C7: photon `j` of atom `i` (stored at position `i*N_photon + j` of
the coordinate sequences) is `rint` of the Gaussian sample around the site
center `(a*M + M/2, N*M - (b*M + M/2))` (with `a`, `b` the unravelled
components of the site index) plus the integer `lattice_origin`; `rint` is a
nearest-integer rounding (error at most `1/2`, so not truncation), and the
stored coordinate is within `1/2` of the camera-frame sample, i.e. of the
origin-offset center plus the jitter. -/
theorem C7_centers_and_rounding (p : Params) (d : Draws) (i j : ℕ)
    (hi : i < p.N_atom) (hj : j < p.N_photon) :
    (x_loc p d)[i * p.N_photon + j]? =
      some (rint (((d.atom_location.getD i 0) / p.N : ℕ) * (p.M : ℚ)
          + (p.M : ℚ) / 2 + (d.jitter i j).1) + p.lattice_origin.1) ∧
    (y_loc p d)[i * p.N_photon + j]? =
      some (rint ((p.N : ℚ) * (p.M : ℚ)
          - (((d.atom_location.getD i 0) % p.N : ℕ) * (p.M : ℚ)
            + (p.M : ℚ) / 2) + (d.jitter i j).2) + p.lattice_origin.2) ∧
    (∀ q : ℚ, |(rint q : ℚ) - q| ≤ 1/2) ∧
    |((rint (x_index p (d.atom_location.getD i 0) + (d.jitter i j).1)
        + p.lattice_origin.1 : ℤ) : ℚ)
      - (x_index p (d.atom_location.getD i 0) + (p.lattice_origin.1 : ℚ)
        + (d.jitter i j).1)| ≤ 1/2 ∧
    |((rint (y_index p (d.atom_location.getD i 0) + (d.jitter i j).2)
        + p.lattice_origin.2 : ℤ) : ℚ)
      - (y_index p (d.atom_location.getD i 0) + (p.lattice_origin.2 : ℚ)
        + (d.jitter i j).2)| ≤ 1/2 := by
  have hsx : (signal_x p d).length = p.N_atom * p.N_photon := by
    simp [signal_x, List.length_flatMap, Function.comp_def, List.map_const]
  have hsy : (signal_y p d).length = p.N_atom * p.N_photon := by
    simp [signal_y, List.length_flatMap, Function.comp_def, List.map_const]
  have hij : i * p.N_photon + j < p.N_atom * p.N_photon := by
    calc i * p.N_photon + j < i * p.N_photon + p.N_photon := by omega
      _ = (i + 1) * p.N_photon := by ring
      _ ≤ p.N_atom * p.N_photon := Nat.mul_le_mul_right p.N_photon hi
  refine ⟨?_, ?_, rint_nearest, ?_, ?_⟩
  · rw [x_loc, List.getElem?_append_left (by rw [hsx]; exact hij), signal_x,
      getElem_flatMap_blocks p.N_photon
        (fun i j => rint (x_index p (d.atom_location.getD i 0)
          + (d.jitter i j).1) + p.lattice_origin.1) p.N_atom i j hi hj]
    rfl
  · rw [y_loc, List.getElem?_append_left (by rw [hsy]; exact hij), signal_y,
      getElem_flatMap_blocks p.N_photon
        (fun i j => rint (y_index p (d.atom_location.getD i 0)
          + (d.jitter i j).2) + p.lattice_origin.2) p.N_atom i j hi hj]
    rfl
  · have he : x_index p (d.atom_location.getD i 0) + (p.lattice_origin.1 : ℚ)
        + (d.jitter i j).1
        = (x_index p (d.atom_location.getD i 0) + (d.jitter i j).1)
          + (p.lattice_origin.1 : ℚ) := by ring
    rw [he]
    exact rint_shift_nearest _ _
  · have he : y_index p (d.atom_location.getD i 0) + (p.lattice_origin.2 : ℚ)
        + (d.jitter i j).2
        = (y_index p (d.atom_location.getD i 0) + (d.jitter i j).2)
          + (p.lattice_origin.2 : ℚ) := by ring
    rw [he]
    exact rint_shift_nearest _ _

/-- Witness for claim C7 at `pA`, `dA`, atom 0, photon 0. -/
theorem C7_witness :
    0 < pA.N_atom ∧ 0 < pA.N_photon ∧
    ((x_loc pA dA)[0 * pA.N_photon + 0]? =
      some (rint (((dA.atom_location.getD 0 0) / pA.N : ℕ) * (pA.M : ℚ)
          + (pA.M : ℚ) / 2 + (dA.jitter 0 0).1) + pA.lattice_origin.1) ∧
    (y_loc pA dA)[0 * pA.N_photon + 0]? =
      some (rint ((pA.N : ℚ) * (pA.M : ℚ)
          - (((dA.atom_location.getD 0 0) % pA.N : ℕ) * (pA.M : ℚ)
            + (pA.M : ℚ) / 2) + (dA.jitter 0 0).2) + pA.lattice_origin.2) ∧
    (∀ q : ℚ, |(rint q : ℚ) - q| ≤ 1/2) ∧
    |((rint (x_index pA (dA.atom_location.getD 0 0) + (dA.jitter 0 0).1)
        + pA.lattice_origin.1 : ℤ) : ℚ)
      - (x_index pA (dA.atom_location.getD 0 0) + (pA.lattice_origin.1 : ℚ)
        + (dA.jitter 0 0).1)| ≤ 1/2 ∧
    |((rint (y_index pA (dA.atom_location.getD 0 0) + (dA.jitter 0 0).2)
        + pA.lattice_origin.2 : ℤ) : ℚ)
      - (y_index pA (dA.atom_location.getD 0 0) + (pA.lattice_origin.2 : ℚ)
        + (dA.jitter 0 0).2)| ≤ 1/2) :=
  ⟨by decide, by decide, C7_centers_and_rounding pA dA 0 0 (by decide) (by decide)⟩

/-- Claim C4: outside the degenerate case (pre-rescale maximum `0`), the
rescale multiplies each cell by `5000 / max` and adds `600`, so every cell
of the returned pixel grid lies in `[600, 5600]` and the maximum `5600` is
attained at some cell. -/
theorem C4_rescale_range (p : Params) (d : Draws)
    (hccd : p.CCD_resolution ≠ 0)
    (hmax : grid_max p.CCD_resolution (pre_grid p d) ≠ 0) :
    ∃ out, synthesize p d = some out ∧
      (∀ r c : ℤ, out.pixel_grid r c =
        (pre_grid p d r c : ℚ)
          * (5000 / (grid_max p.CCD_resolution (pre_grid p d) : ℚ))
          + 600) ∧
      (∀ r c : ℤ, 600 ≤ out.pixel_grid r c ∧ out.pixel_grid r c ≤ 5600) ∧
      (∃ r c : ℤ, out.pixel_grid r c = 5600) := by
  have hle : ∀ r c : ℤ,
      pre_grid p d r c ≤ grid_max p.CCD_resolution (pre_grid p d) := by
    intro r c
    by_cases hin : 0 ≤ r ∧ r < (p.CCD_resolution : ℤ) ∧
        0 ≤ c ∧ c < (p.CCD_resolution : ℤ)
    · have hr : ((r.toNat : ℕ) : ℤ) = r := Int.toNat_of_nonneg hin.1
      have hc : ((c.toNat : ℕ) : ℤ) = c := Int.toNat_of_nonneg hin.2.2.1
      have hmem : (r.toNat, c.toNat) ∈
          Finset.range p.CCD_resolution ×ˢ Finset.range p.CCD_resolution := by
        rw [Finset.mem_product, Finset.mem_range, Finset.mem_range]
        omega
      calc pre_grid p d r c
          = pre_grid p d ((r.toNat : ℕ) : ℤ) ((c.toNat : ℕ) : ℤ) := by
            rw [hr, hc]
        _ ≤ grid_max p.CCD_resolution (pre_grid p d) :=
            Finset.le_sup
              (f := fun rc => pre_grid p d ((rc.1 : ℕ) : ℤ) ((rc.2 : ℕ) : ℤ))
              hmem
    · have h0 : pre_grid p d r c = 0 := by
        rw [pre_grid, rasterize_eq, if_neg]
        intro hcon
        exact hin ⟨le_of_lt hcon.2.2.1, hcon.2.2.2, le_of_lt hcon.1, hcon.2.1⟩
      rw [h0]
      exact Nat.zero_le _
  have hmx0 : (0 : ℚ) < (grid_max p.CCD_resolution (pre_grid p d) : ℚ) := by
    exact_mod_cast Nat.pos_of_ne_zero hmax
  rw [synthesize, if_neg hccd]
  refine ⟨_, rfl, fun r c => rfl, ?_, ?_⟩
  · intro r c
    constructor
    · have hp : (0 : ℚ) ≤ (pre_grid p d r c : ℚ)
          * (5000 / (grid_max p.CCD_resolution (pre_grid p d) : ℚ)) := by
        positivity
      show (600 : ℚ) ≤ (pre_grid p d r c : ℚ)
        * (5000 / (grid_max p.CCD_resolution (pre_grid p d) : ℚ)) + 600
      linarith
    · have hv : (pre_grid p d r c : ℚ)
          ≤ (grid_max p.CCD_resolution (pre_grid p d) : ℚ) := by
        exact_mod_cast hle r c
      have hmul : (pre_grid p d r c : ℚ)
            * (5000 / (grid_max p.CCD_resolution (pre_grid p d) : ℚ))
          ≤ (grid_max p.CCD_resolution (pre_grid p d) : ℚ)
            * (5000 / (grid_max p.CCD_resolution (pre_grid p d) : ℚ)) := by
        apply mul_le_mul_of_nonneg_right hv
        positivity
      have hmm : (grid_max p.CCD_resolution (pre_grid p d) : ℚ)
          * (5000 / (grid_max p.CCD_resolution (pre_grid p d) : ℚ))
          = 5000 := by
        rw [mul_comm]
        exact div_mul_cancel₀ 5000 (ne_of_gt hmx0)
      show (pre_grid p d r c : ℚ)
        * (5000 / (grid_max p.CCD_resolution (pre_grid p d) : ℚ)) + 600
        ≤ 5600
      linarith
  · have hne : (Finset.range p.CCD_resolution ×ˢ
        Finset.range p.CCD_resolution).Nonempty := by
      refine ⟨(0, 0), ?_⟩
      simp only [Finset.mem_product, Finset.mem_range]
      omega
    obtain ⟨rc, -, hsup⟩ := Finset.exists_mem_eq_sup _ hne
      (fun rc => pre_grid p d ((rc.1 : ℕ) : ℤ) ((rc.2 : ℕ) : ℤ))
    have hsup' : grid_max p.CCD_resolution (pre_grid p d)
        = pre_grid p d ((rc.1 : ℕ) : ℤ) ((rc.2 : ℕ) : ℤ) := hsup
    refine ⟨((rc.1 : ℕ) : ℤ), ((rc.2 : ℕ) : ℤ), ?_⟩
    show (pre_grid p d ((rc.1 : ℕ) : ℤ) ((rc.2 : ℕ) : ℤ) : ℚ)
      * (5000 / (grid_max p.CCD_resolution (pre_grid p d) : ℚ)) + 600 = 5600
    rw [← hsup', mul_comm, div_mul_cancel₀ 5000 (ne_of_gt hmx0)]
    norm_num

/-- Witness for claim C4 at `pA`, `dA` (pre-rescale maximum `1`). -/
theorem C4_witness :
    pA.CCD_resolution ≠ 0 ∧
    grid_max pA.CCD_resolution (pre_grid pA dA) ≠ 0 ∧
    (∃ out, synthesize pA dA = some out ∧
      (∀ r c : ℤ, out.pixel_grid r c =
        (pre_grid pA dA r c : ℚ)
          * (5000 / (grid_max pA.CCD_resolution (pre_grid pA dA) : ℚ))
          + 600) ∧
      (∀ r c : ℤ, 600 ≤ out.pixel_grid r c ∧ out.pixel_grid r c ≤ 5600) ∧
      (∃ r c : ℤ, out.pixel_grid r c = 5600)) :=
  ⟨by decide, by rw [grid_max_pA]; decide,
    C4_rescale_range pA dA (by decide) (by rw [grid_max_pA]; decide)⟩

end OpticalLattice
